import Mathlib

/-!
Verification development for the file-retention utility
(cleanup_files.py, generate_cleanup_script.py, verify_files.py).

The Python sources are shallowly embedded: path strings are Lean `String`s,
Python `set`s of strings become `List String` with membership giving set
semantics, the parsed JSON manifest becomes the inductive type `Json`, and
file-system reads become explicit parameters (the manifest as `Option Json`,
the recursive directory walk as a `List String` snapshot of relative paths).
-/

namespace Cleanup

/-- Characters stripped by Python `str.strip()` with no arguments. -/
def pyWs (c : Char) : Bool :=
  c = ' ' || c = '\t' || c = '\n' || c = '\r' || c = '\x0b' || c = '\x0c'

/-- Model of Python `str.strip()` on the character list. -/
def pyStripL (l : List Char) : List Char :=
  ((l.dropWhile pyWs).reverse.dropWhile pyWs).reverse

/-- Model of Python `str.strip()`. -/
def pyStrip (s : String) : String := String.mk (pyStripL s.data)

/-- Model of Python `str.startswith(pre)` at the character-list level. -/
def charsPre : List Char → List Char → Bool
  | [], _ => true
  | _ :: _, [] => false
  | a :: as, b :: bs => a = b && charsPre as bs

/-- Model of Python `str.startswith(pre)`. -/
def pyStarts (s pre : String) : Bool := charsPre pre.data s.data

/-- ASCII lower-casing, modelling Python `str.lower()` on ASCII input. -/
def asciiLowerC (c : Char) : Char :=
  if 'A' ≤ c ∧ c ≤ 'Z' then Char.ofNat (c.toNat + 32) else c

/-- Model of Python `str.lower()` (ASCII). -/
def asciiLower (s : String) : String := String.mk (s.data.map asciiLowerC)

/-- Split a character list at every slash; the result is never empty and the
slash-separated pieces contain no slash. -/
def splitSlash : List Char → List (List Char)
  | [] => [[]]
  | c :: rest =>
    let r := splitSlash rest
    if c = '/' then [] :: r
    else (c :: r.headD []) :: r.tail

/-- A path component that `pathlib` keeps: non-empty and not a lone dot. -/
def goodComp (p : List Char) : Bool := decide (p ≠ [] ∧ p ≠ ['.'])

/-- The components of a path as kept by `pathlib.PurePosixPath`. -/
def pathCompsL (l : List Char) : List (List Char) :=
  (splitSlash l).filter goodComp

/-- Join components back with slashes. -/
def joinSlash : List (List Char) → List Char
  | [] => []
  | [c] => c
  | c :: d :: cs => c ++ '/' :: joinSlash (d :: cs)

/-- Model of `str(pathlib.Path(s))` for POSIX paths: components with empty
and `.` pieces dropped, re-joined; `.` for an empty relative path, with the
leading root slash preserved for absolute paths. -/
def pathStrL (l : List Char) : List Char :=
  if l.head? = some '/' then '/' :: joinSlash (pathCompsL l)
  else if pathCompsL l = [] then ['.'] else joinSlash (pathCompsL l)

/-- Model of `str(pathlib.Path(s))`. -/
def pathStr (s : String) : String := String.mk (pathStrL s.data)

/-- Model of `pathlib.Path(s).name`: the last kept component, or empty. -/
def pathNameL (l : List Char) : List Char := (pathCompsL l).getLastD []

/-- Model of `pathlib.Path(s).name`. -/
def pathName (s : String) : String := String.mk (pathNameL s.data)

/-! The JSON data model and the manifest scanners. -/

/-- A parsed JSON value, as produced by Python's json.load. Object fields
are an association list with distinct keys (Python dict semantics). -/
inductive Json where
  | null : Json
  | bool (b : Bool) : Json
  | num (n : Int) : Json
  | str (s : String) : Json
  | arr (xs : List Json) : Json
  | obj (fields : List (String × Json)) : Json

/-- Field lookup in a JSON object, modelling Python dict access. -/
def lookupField : List (String × Json) → String → Option Json
  | [], _ => none
  | (k, v) :: rest, key => if k = key then some v else lookupField rest key

/-- The contribution of one object node for the key/value pattern: the code
adds obj to the set when obj.get "key" equals the given literal and the
value field is a non-empty (after stripping) string. -/
def kvHit (fs : List (String × Json)) (keyName : String) : List String :=
  match lookupField fs "key", lookupField fs "value" with
  | some (Json.str k), some (Json.str v) =>
    if k = keyName then (if pyStrip v = "" then [] else [v]) else []
  | _, _ => []

/-- The contribution of one object node for a direct file field: the code
adds obj when the field is present, a string, and non-blank. -/
def fileHit (fs : List (String × Json)) : List String :=
  match lookupField fs "file" with
  | some (Json.str v) => if pyStrip v = "" then [] else [v]
  | _ => []

mutual

/-- Model of traverse_json in cleanup_files.py: collect the location,
filename and file-field strings of every object node, depth first. The
three components model the three Python sets (membership is what matters;
duplicates are irrelevant). -/
def scanJson : Json → List String × List String × List String
  | Json.obj fs =>
    let r := scanFields fs
    (kvHit fs "location" ++ r.1, kvHit fs "filename" ++ r.2.1,
      fileHit fs ++ r.2.2)
  | Json.arr xs => scanElems xs
  | Json.null => ([], [], [])
  | Json.bool _ => ([], [], [])
  | Json.num _ => ([], [], [])
  | Json.str _ => ([], [], [])

/-- Recursion of traverse_json over the values of a dict. -/
def scanFields : List (String × Json) → List String × List String × List String
  | [] => ([], [], [])
  | (_, v) :: rest =>
    let a := scanJson v
    let b := scanFields rest
    (a.1 ++ b.1, a.2.1 ++ b.2.1, a.2.2 ++ b.2.2)

/-- Recursion of traverse_json over the items of a list. -/
def scanElems : List Json → List String × List String × List String
  | [] => ([], [], [])
  | x :: rest =>
    let a := scanJson x
    let b := scanElems rest
    (a.1 ++ b.1, a.2.1 ++ b.2.1, a.2.2 ++ b.2.2)

end

mutual

/-- Model of traverse_json in generate_cleanup_script.py (the identical
traversal also appears in verify_files.py): collect only the location
strings of every object node. -/
def scanJsonLoc : Json → List String
  | Json.obj fs => kvHit fs "location" ++ scanFieldsLoc fs
  | Json.arr xs => scanElemsLoc xs
  | Json.null => []
  | Json.bool _ => []
  | Json.num _ => []
  | Json.str _ => []

/-- Recursion of the location-only traversal over the values of a dict. -/
def scanFieldsLoc : List (String × Json) → List String
  | [] => []
  | (_, v) :: rest => scanJsonLoc v ++ scanFieldsLoc rest

/-- Recursion of the location-only traversal over the items of a list. -/
def scanElemsLoc : List Json → List String
  | [] => []
  | x :: rest => scanJsonLoc x ++ scanElemsLoc rest

end


/-! The retention planners and drivers. -/

/-- Model of get_protected_files in cleanup_files.py. -/
def protectedFilesCleanup : List String :=
  ["input.json", "cleanup_files.py", "poc.json", ".git", ".gitignore",
    "README.md", "pom.xml", "mvnw", "mvnw.cmd"]

/-- Model of get_protected_files in generate_cleanup_script.py. -/
def protectedFilesGen : List String :=
  ["input.json", "cleanup_files.py", "generate_cleanup_script.py",
    "cleanup_script.sh", "poc.json", ".git", ".gitignore", "README.md",
    "pom.xml", "mvnw", "mvnw.cmd"]

/-- Model of the protected-file literal in verify_files.py. -/
def protectedFilesVerify : List String :=
  ["input.json", "cleanup_files.py", "generate_cleanup_script.py",
    "verify_files.py", "cleanup_script.sh", "poc.json", ".git", ".gitignore",
    "README.md", "pom.xml", "mvnw", "mvnw.cmd"]

/-- Model of normalize_path: drop a leading dot-slash (the later Path
conversion is applied at each use site via pathStr and pathName). -/
def normalize_path (s : String) : String :=
  if pyStarts s "./" then String.mk (s.data.drop 2) else s

/-- The keep-pool entries contributed by one location (or file-field)
string: the normalized full path and, when non-empty, its base name. This
models the two set-add statements of find_files_to_delete. -/
def normEntries (locFiles : List String) : List String :=
  locFiles.flatMap (fun l =>
    if pathName (normalize_path l) = "" then [pathStr (normalize_path l)]
    else [pathStr (normalize_path l), pathName (normalize_path l)])

/-- The keep-pool entries contributed by filename strings: the stripped
string, when non-blank. -/
def filenameEntries (filenameFiles : List String) : List String :=
  filenameFiles.flatMap (fun s => if pyStrip s = "" then [] else [pyStrip s])

/-- One iteration of the keep loop in cleanup_files.find_files_to_delete:
exact normalized-path match, base-name match, raw base-name match, or the
version-control prefix check. -/
def keepMatch (f k : String) : Bool :=
  (pathStr f = pathStr k : Bool) || (pathName f = pathName k : Bool) ||
    (pathName f = k : Bool) || pyStarts (pathStr f) ".git/"

/-- Whether some keep-pool entry retains f (cleanup_files.py loop). -/
def shouldKeep (keeps : List String) (f : String) : Bool :=
  keeps.any (fun k => keepMatch f k)

/-- Model of find_files_to_delete in cleanup_files.py. The recursive
directory walk is abstracted as the snapshot list of relative paths; the
function returns the delete list and the keep pool, in the order the
Python function returns them. -/
def find_files_to_delete (location_files filename_files file_field_files
    protected_files snapshot : List String) : List String × List String :=
  let files_to_keep := protected_files ++ normEntries location_files ++
    filenameEntries filename_files ++ normEntries file_field_files
  (snapshot.filter (fun f => !shouldKeep files_to_keep f), files_to_keep)

/-- One iteration of the keep loop in the script generator (no raw
base-name clause). -/
def keepMatchGen (f k : String) : Bool :=
  (pathStr f = pathStr k : Bool) || (pathName f = pathName k : Bool) ||
    pyStarts (pathStr f) ".git/"

/-- Whether some keep-pool entry retains f (generate_cleanup_script.py). -/
def shouldKeepGen (keeps : List String) (f : String) : Bool :=
  keeps.any (fun k => keepMatchGen f k)

/-- Model of find_files_to_delete in generate_cleanup_script.py. -/
def find_files_to_delete_gen (location_files protected_files snapshot :
    List String) : List String × List String :=
  let files_to_keep := protected_files ++ normEntries location_files
  (snapshot.filter (fun f => !shouldKeepGen files_to_keep f), files_to_keep)

/-- Model of extract_location_files in cleanup_files.py: a missing or
unparsable manifest (the caught FileNotFoundError / JSONDecodeError) is the
none case and yields three empty sets. -/
def extract_location_files (m : Option Json) :
    List String × List String × List String :=
  match m with
  | none => ([], [], [])
  | some j => scanJson j

/-- Model of extract_location_files in generate_cleanup_script.py and
verify_files.py (location entries only). -/
def extract_location_files_loc (m : Option Json) : List String :=
  match m with
  | none => []
  | some j => scanJsonLoc j

/-- Model of main in cleanup_files.py, returning the list of files the run
removes: empty when the scan finds nothing, empty when the plan is empty,
the planned delete list when the stripped lower-cased answer is yes or y,
and empty otherwise (operation cancelled). Per-file removal is assumed to
succeed, since every planned file exists in the snapshot. -/
def mainDeleted (m : Option Json) (snapshot : List String)
    (answer : String) : List String :=
  if (extract_location_files m).1 = [] ∧
      (extract_location_files m).2.1 = [] ∧
      (extract_location_files m).2.2 = [] then []
  else if (find_files_to_delete (extract_location_files m).1
      (extract_location_files m).2.1 (extract_location_files m).2.2
      protectedFilesCleanup snapshot).1 = [] then []
  else if asciiLower (pyStrip answer) = "yes" ∨
      asciiLower (pyStrip answer) = "y" then
    (find_files_to_delete (extract_location_files m).1
      (extract_location_files m).2.1 (extract_location_files m).2.2
      protectedFilesCleanup snapshot).1
  else []

/-- Model of the count printed by verify_files.py as the estimated number
of files to be deleted: size of the walked file list minus the size of the
location set minus the size of the protected set. -/
def verifyEstimate (m : Option Json) (snapshot : List String) : Int :=
  (snapshot.length : Int) -
    ((extract_location_files_loc m).dedup.length : Int) -
    (protectedFilesVerify.dedup.length : Int)

/-- The subterm relation on JSON values: j occurs somewhere inside J,
through object fields and array elements (any nesting depth). -/
inductive SubJson : Json → Json → Prop where
  | refl (j : Json) : SubJson j j
  | inObj {j J : Json} {fs : List (String × Json)} {k : String} :
      SubJson j J → (k, J) ∈ fs → SubJson j (Json.obj fs)
  | inArr {j J : Json} {xs : List Json} :
      SubJson j J → J ∈ xs → SubJson j (Json.arr xs)

/-! Concrete sample inputs used by witnesses and counterexamples. -/

/-- The fields of the location object of Scenario A. -/
def fieldsA : List (String × Json) :=
  [("key", Json.str "location"), ("value", Json.str "keep/me.txt")]

/-- The manifest of Scenario A. -/
def manifestA : Json := Json.obj [("items", Json.arr [Json.obj fieldsA])]

/-- The Scenario A snapshot: the two data files plus the protected files
present on disk. -/
def snapshotA : List String :=
  ["keep/me.txt", "delete/me.txt", "input.json", "cleanup_files.py",
    "poc.json", ".gitignore", "README.md", "pom.xml", "mvnw", "mvnw.cmd"]

/-- A manifest with one location entry and one direct file field. -/
def manifestBoth : Json :=
  Json.arr [Json.obj [("key", Json.str "location"),
      ("value", Json.str "a.txt")],
    Json.obj [("file", Json.str "b.txt")]]

/-- A manifest with a single location entry for a.txt. -/
def manifestLocOnly : Option Json :=
  some (Json.obj [("key", Json.str "location"), ("value", Json.str "a.txt")])

/-- An object whose value field is not a string and whose file field is
blank; its node contributes nothing to the scan. -/
def fieldsSkipped : List (String × Json) :=
  [("key", Json.str "location"), ("value", Json.num 3),
    ("file", Json.str " ")]

/-! Lemmas. -/

theorem splitSlash_cons_slash (rest : List Char) :
    splitSlash ('/' :: rest) = [] :: splitSlash rest := by
  simp [splitSlash]

theorem splitSlash_cons_other {c : Char} (hc : c ≠ '/') (rest : List Char) :
    splitSlash (c :: rest) =
      (c :: (splitSlash rest).headD []) :: (splitSlash rest).tail := by
  simp [splitSlash, hc]

theorem splitSlash_ne_nil (l : List Char) : splitSlash l ≠ [] := by
  cases l with
  | nil => simp [splitSlash]
  | cons c rest =>
    by_cases h : c = '/'
    · subst h; rw [splitSlash_cons_slash]; simp
    · rw [splitSlash_cons_other h]; simp

theorem splitSlash_no_slash (l : List Char) :
    ∀ p ∈ splitSlash l, '/' ∉ p := by
  induction l with
  | nil =>
    intro p hp
    simp only [splitSlash, List.mem_singleton] at hp
    subst hp; simp
  | cons c rest ih =>
    intro p hp
    by_cases h : c = '/'
    · subst h
      rw [splitSlash_cons_slash] at hp
      rcases List.mem_cons.mp hp with hp | hp
      · subst hp; simp
      · exact ih p hp
    · rw [splitSlash_cons_other h] at hp
      cases hq : splitSlash rest with
      | nil => exact absurd hq (splitSlash_ne_nil rest)
      | cons q qs =>
        rw [hq] at hp
        simp only [List.headD_cons, List.tail_cons] at hp
        rcases List.mem_cons.mp hp with hp | hp
        · subst hp
          intro hmem
          rcases List.mem_cons.mp hmem with hmem | hmem
          · exact h hmem.symm
          · exact ih q (hq ▸ List.mem_cons_self q qs) hmem
        · exact ih p (hq ▸ List.mem_cons_of_mem q hp)

theorem splitSlash_no_slash_eq {l : List Char} (h : '/' ∉ l) :
    splitSlash l = [l] := by
  induction l with
  | nil => simp [splitSlash]
  | cons c rest ih =>
    have hc : c ≠ '/' := fun hc => h (hc ▸ List.mem_cons_self c rest)
    have hr : '/' ∉ rest := fun hr => h (List.mem_cons_of_mem c hr)
    rw [splitSlash_cons_other hc, ih hr]
    simp

theorem splitSlash_append {a t : List Char} (h : '/' ∉ a) :
    splitSlash (a ++ '/' :: t) = a :: splitSlash t := by
  induction a with
  | nil => simp [splitSlash]
  | cons c a' ih =>
    have hc : c ≠ '/' := fun hc => h (hc ▸ List.mem_cons_self c a')
    have ha : '/' ∉ a' := fun ha => h (List.mem_cons_of_mem c ha)
    rw [List.cons_append, splitSlash_cons_other hc, ih ha]
    simp

/-- Splitting undoes joining, for slash-free non-degenerate components. -/
theorem splitSlash_joinSlash {cs : List (List Char)} (hne : cs ≠ [])
    (h : ∀ c ∈ cs, '/' ∉ c) : splitSlash (joinSlash cs) = cs := by
  induction cs with
  | nil => exact absurd rfl hne
  | cons c cs ih =>
    cases cs with
    | nil =>
      rw [joinSlash, splitSlash_no_slash_eq (h c (List.mem_cons_self c []))]
    | cons d ds =>
      rw [joinSlash,
        splitSlash_append (h c (List.mem_cons_self c (d :: ds))),
        ih (by simp) (fun x hx => h x (List.mem_cons_of_mem c hx))]

/-- Every kept component is non-degenerate. -/
theorem pathCompsL_good {l : List Char} {p : List Char}
    (hp : p ∈ pathCompsL l) : goodComp p = true :=
  (List.mem_filter.mp hp).2

/-- Every kept component is slash-free. -/
theorem pathCompsL_no_slash {l : List Char} {p : List Char}
    (hp : p ∈ pathCompsL l) : '/' ∉ p :=
  splitSlash_no_slash l p (List.mem_filter.mp hp).1

/-- Re-parsing a rendered path yields the same components. -/
theorem pathCompsL_pathStrL (l : List Char) :
    pathCompsL (pathStrL l) = pathCompsL l := by
  have hgoodall : ∀ x ∈ pathCompsL l, goodComp x = true :=
    fun x hx => pathCompsL_good hx
  have hnsall : ∀ x ∈ pathCompsL l, '/' ∉ x :=
    fun x hx => pathCompsL_no_slash hx
  rw [pathStrL]
  by_cases habs : l.head? = some '/'
  · rw [if_pos habs]
    cases hcs : pathCompsL l with
    | nil => decide
    | cons c cs =>
      have h1 : pathCompsL ('/' :: joinSlash (c :: cs)) =
          ([] :: (c :: cs)).filter goodComp := by
        rw [pathCompsL, splitSlash_cons_slash,
          splitSlash_joinSlash (by simp) (fun x hx => hnsall x (hcs ▸ hx))]
      rw [h1, List.filter_cons, if_neg (by simp [goodComp])]
      exact List.filter_eq_self.mpr (fun x hx => hgoodall x (hcs ▸ hx))
  · rw [if_neg habs]
    cases hcs : pathCompsL l with
    | nil => rw [if_pos rfl]; decide
    | cons c cs =>
      rw [if_neg (by simp), pathCompsL,
        splitSlash_joinSlash (by simp) (fun x hx => hnsall x (hcs ▸ hx))]
      exact List.filter_eq_self.mpr (fun x hx => hgoodall x (hcs ▸ hx))

/-- Path rendering does not change the final component. -/
theorem pathNameL_pathStrL (l : List Char) :
    pathNameL (pathStrL l) = pathNameL l := by
  rw [pathNameL, pathNameL, pathCompsL_pathStrL]

/-- Path rendering does not change the final component (string form). -/
theorem pathName_pathStr (s : String) : pathName (pathStr s) = pathName s :=
  congrArg String.mk (pathNameL_pathStrL s.data)

/-- The final component of a path is itself a fixed point of pathNameL. -/
theorem pathNameL_idem (l : List Char) :
    pathNameL (pathNameL l) = pathNameL l := by
  cases hcs : pathCompsL l with
  | nil =>
    have h1 : pathNameL l = [] := by rw [pathNameL, hcs]; rfl
    rw [h1]; decide
  | cons c cs =>
    have hmem : (c :: cs).getLastD [] ∈ c :: cs := by
      rw [List.getLastD_eq_getLast?,
        List.getLast?_eq_getLast (c :: cs) (by simp), Option.getD_some]
      exact List.getLast_mem (by simp)
    have hgood : goodComp ((c :: cs).getLastD []) = true :=
      pathCompsL_good (l := l) (by rw [hcs]; exact hmem)
    have hns : '/' ∉ (c :: cs).getLastD [] :=
      pathCompsL_no_slash (l := l) (by rw [hcs]; exact hmem)
    have h1 : pathNameL l = (c :: cs).getLastD [] := by rw [pathNameL, hcs]
    rw [h1, pathNameL, pathCompsL, splitSlash_no_slash_eq hns,
      List.filter_cons, if_pos hgood]
    rfl

/-- pathName is idempotent (string form). -/
theorem pathName_idem (s : String) : pathName (pathName s) = pathName s :=
  congrArg String.mk (pathNameL_idem s.data)


mutual

/-- The location-only traversal agrees with the location component of the
full traversal of cleanup_files.py. -/
theorem scanJsonLoc_eq : ∀ j, scanJsonLoc j = (scanJson j).1
  | Json.obj fs => by
    rw [scanJsonLoc, scanJson, scanFieldsLoc_eq fs]
  | Json.arr xs => by rw [scanJsonLoc, scanJson, scanElemsLoc_eq xs]
  | Json.null => rfl
  | Json.bool _ => rfl
  | Json.num _ => rfl
  | Json.str _ => rfl

/-- Field-list version of scanJsonLoc_eq. -/
theorem scanFieldsLoc_eq : ∀ fs, scanFieldsLoc fs = (scanFields fs).1
  | [] => rfl
  | (k, v) :: rest => by
    rw [scanFieldsLoc, scanFields, scanJsonLoc_eq v, scanFieldsLoc_eq rest]

/-- Element-list version of scanJsonLoc_eq. -/
theorem scanElemsLoc_eq : ∀ xs, scanElemsLoc xs = (scanElems xs).1
  | [] => rfl
  | x :: rest => by
    rw [scanElemsLoc, scanElems, scanJsonLoc_eq x, scanElemsLoc_eq rest]

end

/-! Helper lemmas about the planner. -/

/-- Two booleans agreeing as propositions are equal. -/
theorem bool_eq_of_iff {a b : Bool} (h : a = true ↔ b = true) : a = b := by
  cases a <;> cases b <;> simp_all

/-- A file matching some keep-pool entry is kept. -/
theorem shouldKeep_of_mem {keeps : List String} {f k : String}
    (hk : k ∈ keeps) (hm : keepMatch f k = true) :
    shouldKeep keeps f = true :=
  List.any_eq_true.mpr ⟨k, hk, hm⟩

/-- Every keep-pool entry matches itself. -/
theorem keepMatch_self (f : String) : keepMatch f f = true := by
  simp [keepMatch]

/-- Membership in the delete list, unfolded. -/
theorem mem_delete_iff {keeps snap : List String} {f : String} :
    f ∈ snap.filter (fun g => !shouldKeep keeps g) ↔
      f ∈ snap ∧ shouldKeep keeps f = false := by
  rw [List.mem_filter, Bool.not_eq_eq_eq_not, Bool.not_true]

/-- A kept file is not in the delete list. -/
theorem notMem_delete_of_shouldKeep {keeps snap : List String} {f : String}
    (h : shouldKeep keeps f = true) :
    f ∉ snap.filter (fun g => !shouldKeep keeps g) := by
  intro hmem
  rw [mem_delete_iff] at hmem
  rw [h] at hmem
  exact absurd hmem.2 (by simp)

/-- The delete list and keep pool of find_files_to_delete, unfolded. -/
theorem find_files_to_delete_eq (loc fn ff prot snap : List String) :
    find_files_to_delete loc fn ff prot snap =
      (snap.filter (fun f => !shouldKeep (prot ++ normEntries loc ++
        filenameEntries fn ++ normEntries ff) f),
       prot ++ normEntries loc ++ filenameEntries fn ++ normEntries ff) :=
  rfl

/-- The delete list and keep pool of the generator planner, unfolded. -/
theorem find_files_to_delete_gen_eq (loc prot snap : List String) :
    find_files_to_delete_gen loc prot snap =
      (snap.filter (fun f => !shouldKeepGen (prot ++ normEntries loc) f),
       prot ++ normEntries loc) :=
  rfl

/-! Claim theorems. -/

/-- C5: if the manifest file is missing or its contents are not valid JSON
(the none case of the read), the scan returns all three sets empty, and the
driver aborts the run deleting zero files, whatever the snapshot and
confirmation answer: the empty result means nothing to do, never delete
everything. -/
theorem claim5_missing_manifest_aborts :
    extract_location_files none = ([], [], []) ∧
    ∀ (snapshot : List String) (answer : String),
      mainDeleted none snapshot answer = [] :=
  ⟨rfl, fun _ _ => rfl⟩

/-- C6: every filename in the protected set is an element of the keep set
produced by either planner, regardless of the scanned manifest content. -/
theorem claim6_protected_subset_keepSet (loc fn ff prot snap : List String)
    (p : String) (hp : p ∈ prot) :
    p ∈ (find_files_to_delete loc fn ff prot snap).2 ∧
    p ∈ (find_files_to_delete_gen loc prot snap).2 := by
  rw [find_files_to_delete_eq, find_files_to_delete_gen_eq]
  constructor
  · exact List.mem_append_left _ (List.mem_append_left _
      (List.mem_append_left _ hp))
  · exact List.mem_append_left _ hp

/-- Witness for C6 at a concrete protected file. -/
theorem claim6_witness :
    "input.json" ∈ (find_files_to_delete [] [] [] protectedFilesCleanup
      []).2 ∧
    "input.json" ∈ (find_files_to_delete_gen [] protectedFilesCleanup []).2 :=
  claim6_protected_subset_keepSet [] [] [] protectedFilesCleanup []
    "input.json" (by decide)

/-- C1 counterexample: at the empty manifest sets and the empty snapshot,
the keep set returned by the planner is non-empty, so keep set and delete
list do not form a partition of the snapshot: their union is not the
snapshot. -/
theorem claim1_counterexample :
    ¬ (∀ f : String,
      (f ∈ (find_files_to_delete [] [] [] protectedFilesCleanup []).2 ∨
        f ∈ (find_files_to_delete [] [] [] protectedFilesCleanup []).1) ↔
      f ∈ ([] : List String)) := by
  intro h
  have h2 := (h "input.json").mp (Or.inl (by decide))
  exact absurd h2 (by decide)

/-- C1 amended: the delete list, together with the snapshot files that the
keep rule retains, partitions the snapshot (union is the snapshot and the
two are disjoint); the returned keep set is disjoint from the delete list,
but it is the keep pool, so its union with the delete list need not equal
the snapshot. -/
theorem claim1_partition_amended (loc fn ff prot snap : List String) :
    (∀ f, f ∈ snap ↔
      (f ∈ snap.filter (fun g =>
          shouldKeep (find_files_to_delete loc fn ff prot snap).2 g) ∨
        f ∈ (find_files_to_delete loc fn ff prot snap).1)) ∧
    (∀ f, ¬ (f ∈ snap.filter (fun g =>
          shouldKeep (find_files_to_delete loc fn ff prot snap).2 g) ∧
        f ∈ (find_files_to_delete loc fn ff prot snap).1)) ∧
    (∀ f, f ∈ (find_files_to_delete loc fn ff prot snap).2 →
      f ∉ (find_files_to_delete loc fn ff prot snap).1) := by
  rw [find_files_to_delete_eq]
  refine ⟨?_, ?_, ?_⟩
  · intro f
    constructor
    · intro hf
      rcases hb : shouldKeep (prot ++ normEntries loc ++ filenameEntries fn
          ++ normEntries ff) f with _ | _
      · exact Or.inr (mem_delete_iff.mpr ⟨hf, hb⟩)
      · exact Or.inl (List.mem_filter.mpr ⟨hf, hb⟩)
    · intro hf
      rcases hf with hf | hf
      · exact (List.mem_filter.mp hf).1
      · exact (mem_delete_iff.mp hf).1
  · intro f hf
    have h1 := (List.mem_filter.mp hf.1).2
    have h2 := (mem_delete_iff.mp hf.2).2
    rw [h1] at h2
    exact absurd h2 (by simp)
  · intro f hf
    exact notMem_delete_of_shouldKeep (shouldKeep_of_mem hf
      (keepMatch_self f))

/-- Witness for the amended C1 at a concrete input. -/
theorem claim1_amended_witness :
    "input.json" ∉ (find_files_to_delete [] [] [] protectedFilesCleanup
      ["input.json", "a.txt"]).1 :=
  (claim1_partition_amended [] [] [] protectedFilesCleanup
    ["input.json", "a.txt"]).2.2 "input.json" (by decide)

/-- C7: basename fallback. If the location set contains sub/dir/report.txt
and the snapshot holds both sub/dir/report.txt and other/report.txt, both
are kept; and on the Scenario A manifest with snapshot keep/me.txt,
delete/me.txt plus the protected files on disk, the delete list is empty
because delete/me.txt shares the base name me.txt with the keep entry. -/
theorem claim7_basename_fallback :
    (∀ loc fn ff prot snap : List String,
      "sub/dir/report.txt" ∈ loc →
      "sub/dir/report.txt" ∈ snap → "other/report.txt" ∈ snap →
      "sub/dir/report.txt" ∉ (find_files_to_delete loc fn ff prot snap).1 ∧
      "other/report.txt" ∉ (find_files_to_delete loc fn ff prot snap).1) ∧
    (find_files_to_delete (scanJson manifestA).1 (scanJson manifestA).2.1
      (scanJson manifestA).2.2 protectedFilesCleanup snapshotA).1 = [] := by
  constructor
  · intro loc fn ff prot snap hloc _ _
    have hk : "sub/dir/report.txt" ∈ normEntries loc := by
      rw [normEntries]
      exact List.mem_flatMap.mpr ⟨"sub/dir/report.txt", hloc, by decide⟩
    have hk2 : "sub/dir/report.txt" ∈ prot ++ normEntries loc ++
        filenameEntries fn ++ normEntries ff :=
      List.mem_append_left _ (List.mem_append_left _
        (List.mem_append_right _ hk))
    rw [find_files_to_delete_eq]
    constructor
    · exact notMem_delete_of_shouldKeep (shouldKeep_of_mem hk2 (by decide))
    · exact notMem_delete_of_shouldKeep (shouldKeep_of_mem hk2 (by decide))
  · decide

/-- Witness for the universally quantified part of C7. -/
theorem claim7_witness :
    "sub/dir/report.txt" ∉ (find_files_to_delete ["sub/dir/report.txt"]
      [] [] protectedFilesCleanup
      ["sub/dir/report.txt", "other/report.txt"]).1 ∧
    "other/report.txt" ∉ (find_files_to_delete ["sub/dir/report.txt"]
      [] [] protectedFilesCleanup
      ["sub/dir/report.txt", "other/report.txt"]).1 :=
  claim7_basename_fallback.1 ["sub/dir/report.txt"] [] []
    protectedFilesCleanup ["sub/dir/report.txt", "other/report.txt"]
    (by decide) (by decide) (by decide)

/-- Paths rendering equal have equal base names. -/
theorem name_eq_of_pathStr_eq {f k : String} (h : pathStr f = pathStr k) :
    pathName f = pathName k := by
  rw [← pathName_pathStr f, h, pathName_pathStr]

/-- The keep loop test, as a proposition. -/
theorem keepMatch_iff {f k : String} :
    keepMatch f k = true ↔
      (pathStr f = pathStr k ∨ pathName f = pathName k ∨ pathName f = k ∨
        pyStarts (pathStr f) ".git/" = true) := by
  simp [keepMatch, Bool.or_eq_true, decide_eq_true_eq, or_assoc]

/-- C3: for a snapshot file f (a normalized relative path, as produced by
the recursive walk), the planner keeps f, that is f avoids the delete
list, exactly when some keep-pool entry k satisfies: f equals k as a full
relative path, or the base names of f and k agree, or the base name of f
equals k verbatim, or f starts with the version-control prefix .git/. -/
theorem claim3_decision_rule (loc fn ff prot snap : List String)
    (f : String) (hf : f ∈ snap) (hnorm : pathStr f = f) :
    f ∉ (find_files_to_delete loc fn ff prot snap).1 ↔
      ∃ k ∈ (find_files_to_delete loc fn ff prot snap).2,
        (f = k ∨ pathName f = pathName k ∨ pathName f = k ∨
          pyStarts f ".git/" = true) := by
  rw [find_files_to_delete_eq]
  have hkeep : f ∉ (snap.filter (fun g => !shouldKeep (prot ++
      normEntries loc ++ filenameEntries fn ++ normEntries ff) g)) ↔
      shouldKeep (prot ++ normEntries loc ++ filenameEntries fn ++
        normEntries ff) f = true := by
    constructor
    · intro hmem
      rcases hb : shouldKeep (prot ++ normEntries loc ++
          filenameEntries fn ++ normEntries ff) f with _ | _
      · exact absurd (mem_delete_iff.mpr ⟨hf, hb⟩) hmem
      · rfl
    · exact notMem_delete_of_shouldKeep
  rw [hkeep, shouldKeep, List.any_eq_true]
  constructor
  · rintro ⟨k, hk, hm⟩
    refine ⟨k, hk, ?_⟩
    rcases keepMatch_iff.mp hm with h | h | h | h
    · exact Or.inr (Or.inl (name_eq_of_pathStr_eq h))
    · exact Or.inr (Or.inl h)
    · exact Or.inr (Or.inr (Or.inl h))
    · rw [hnorm] at h
      exact Or.inr (Or.inr (Or.inr h))
  · rintro ⟨k, hk, hm⟩
    refine ⟨k, hk, keepMatch_iff.mpr ?_⟩
    rcases hm with h | h | h | h
    · exact Or.inl (congrArg pathStr h)
    · exact Or.inr (Or.inl h)
    · exact Or.inr (Or.inr (Or.inl h))
    · rw [hnorm]
      exact Or.inr (Or.inr (Or.inr h))

/-- Witness for C3 on Scenario A data: delete/me.txt is retained exactly
because of its base-name collision with the keep entry. -/
theorem claim3_witness :
    "delete/me.txt" ∉ (find_files_to_delete ["keep/me.txt"] [] []
      protectedFilesCleanup snapshotA).1 ↔
      ∃ k ∈ (find_files_to_delete ["keep/me.txt"] [] []
        protectedFilesCleanup snapshotA).2,
        ("delete/me.txt" = k ∨
          pathName "delete/me.txt" = pathName k ∨
          pathName "delete/me.txt" = k ∨
          pyStarts "delete/me.txt" ".git/" = true) :=
  claim3_decision_rule ["keep/me.txt"] [] [] protectedFilesCleanup
    snapshotA "delete/me.txt" (by decide) (by decide)

/-- A blank or non-string value field contributes no key/value hit. -/
theorem kvHit_eq_nil {fs : List (String × Json)} {keyName : String}
    (hv : ∀ s, lookupField fs "value" = some (Json.str s) →
      pyStrip s = "") : kvHit fs keyName = [] := by
  unfold kvHit
  split
  · next k v heq1 heq2 => simp [hv v heq2]
  · rfl

/-- A blank or non-string file field contributes no file hit. -/
theorem fileHit_eq_nil {fs : List (String × Json)}
    (hf : ∀ s, lookupField fs "file" = some (Json.str s) →
      pyStrip s = "") : fileHit fs = [] := by
  unfold fileHit
  split
  · next v heq => simp [hf v heq]
  · rfl

/-- C9: the scan is total by construction, and an object node whose value
field is not a string or is blank after stripping, and whose file field is
not a string or is blank, contributes nothing itself: scanning the node
equals scanning its children only, so nothing is added to any of the three
output sets. -/
theorem claim9_skips_blank_and_non_string (fs : List (String × Json))
    (hv : ∀ s, lookupField fs "value" = some (Json.str s) → pyStrip s = "")
    (hf : ∀ s, lookupField fs "file" = some (Json.str s) → pyStrip s = "") :
    scanJson (Json.obj fs) = scanFields fs := by
  show (kvHit fs "location" ++ (scanFields fs).1,
    kvHit fs "filename" ++ (scanFields fs).2.1,
    fileHit fs ++ (scanFields fs).2.2) = scanFields fs
  rw [kvHit_eq_nil hv, kvHit_eq_nil hv, fileHit_eq_nil hf]
  simp

/-- Witness for C9: a node with a numeric value field and a blank file
field contributes nothing. -/
theorem claim9_witness :
    scanJson (Json.obj fieldsSkipped) = scanFields fieldsSkipped :=
  claim9_skips_blank_and_non_string fieldsSkipped
    (by
      intro s h
      rw [show lookupField fieldsSkipped "value" = some (Json.num 3)
        from rfl] at h
      exact absurd h (by simp))
    (by
      intro s h
      rw [show lookupField fieldsSkipped "file" = some (Json.str " ")
        from rfl] at h
      have hs : s = " " := by
        have := Option.some.inj h
        exact (Json.str.inj this).symm
      rw [hs]
      decide)

/-- A non-blank string value field under the matching key yields exactly
that singleton hit. -/
theorem kvHit_pos {fs : List (String × Json)} {keyName v : String}
    (h1 : lookupField fs "key" = some (Json.str keyName))
    (h2 : lookupField fs "value" = some (Json.str v))
    (h3 : pyStrip v ≠ "") : kvHit fs keyName = [v] := by
  unfold kvHit
  split
  · next k' v' heq1 heq2 =>
    rw [h1] at heq1
    rw [h2] at heq2
    have hk : keyName = k' := Json.str.inj (Option.some.inj heq1)
    have hv : v = v' := Json.str.inj (Option.some.inj heq2)
    rw [← hk, ← hv]
    simp [h3]
  · next hno => exact (hno keyName v h1 h2).elim

/-- A non-blank string file field yields exactly that singleton hit. -/
theorem fileHit_pos {fs : List (String × Json)} {v : String}
    (h2 : lookupField fs "file" = some (Json.str v))
    (h3 : pyStrip v ≠ "") : fileHit fs = [v] := by
  unfold fileHit
  split
  · next v' heq =>
    rw [h2] at heq
    have hv : v = v' := Json.str.inj (Option.some.inj heq)
    rw [← hv]
    simp [h3]
  · next hno => exact (hno v h2).elim

/-- The scan of a field value is contained in the scan of the field list. -/
theorem scanFields_sub {fs : List (String × Json)} {k : String} {v : Json}
    (h : (k, v) ∈ fs) :
    (scanJson v).1 ⊆ (scanFields fs).1 ∧
    (scanJson v).2.1 ⊆ (scanFields fs).2.1 ∧
    (scanJson v).2.2 ⊆ (scanFields fs).2.2 := by
  induction fs with
  | nil => cases h
  | cons p rest ih =>
    obtain ⟨k', v'⟩ := p
    rcases List.mem_cons.mp h with h | h
    · obtain ⟨hk, hv⟩ := Prod.mk.injEq .. ▸ h
      subst hv
      exact ⟨List.subset_append_left _ _, List.subset_append_left _ _,
        List.subset_append_left _ _⟩
    · have := ih h
      exact ⟨this.1.trans (List.subset_append_right _ _),
        this.2.1.trans (List.subset_append_right _ _),
        this.2.2.trans (List.subset_append_right _ _)⟩

/-- The scan of an array element is contained in the scan of the array. -/
theorem scanElems_sub {xs : List Json} {v : Json} (h : v ∈ xs) :
    (scanJson v).1 ⊆ (scanElems xs).1 ∧
    (scanJson v).2.1 ⊆ (scanElems xs).2.1 ∧
    (scanJson v).2.2 ⊆ (scanElems xs).2.2 := by
  induction xs with
  | nil => cases h
  | cons x rest ih =>
    rcases List.mem_cons.mp h with h | h
    · subst h
      exact ⟨List.subset_append_left _ _, List.subset_append_left _ _,
        List.subset_append_left _ _⟩
    · have := ih h
      exact ⟨this.1.trans (List.subset_append_right _ _),
        this.2.1.trans (List.subset_append_right _ _),
        this.2.2.trans (List.subset_append_right _ _)⟩

/-- Everything collected from a subterm is collected from the whole. -/
theorem scan_sub_mono {j J : Json} (h : SubJson j J) :
    (scanJson j).1 ⊆ (scanJson J).1 ∧
    (scanJson j).2.1 ⊆ (scanJson J).2.1 ∧
    (scanJson j).2.2 ⊆ (scanJson J).2.2 := by
  induction h with
  | refl => exact ⟨List.Subset.refl _, List.Subset.refl _, List.Subset.refl _⟩
  | inObj hsub hmem ih =>
    have h2 := scanFields_sub hmem
    exact ⟨ih.1.trans (h2.1.trans (List.subset_append_right _ _)),
      ih.2.1.trans (h2.2.1.trans (List.subset_append_right _ _)),
      ih.2.2.trans (h2.2.2.trans (List.subset_append_right _ _))⟩
  | inArr hsub hmem ih =>
    have h2 := scanElems_sub hmem
    exact ⟨ih.1.trans h2.1, ih.2.1.trans h2.2.1, ih.2.2.trans h2.2.2⟩

/-- C4: at every object node, at any nesting depth, the scanner adds the
value string to the location set when the node's key field is the string
location and the value is a non-blank string; when the key field is the
string filename it adds to the filename set; independently, a non-blank
string file field is added to the file-field set; and an object with key
equal to locationX contributes nothing at all. -/
theorem claim4_node_extraction :
    (∀ (J : Json) (fs : List (String × Json)) (v : String),
      SubJson (Json.obj fs) J →
      lookupField fs "key" = some (Json.str "location") →
      lookupField fs "value" = some (Json.str v) →
      pyStrip v ≠ "" → v ∈ (scanJson J).1) ∧
    (∀ (J : Json) (fs : List (String × Json)) (v : String),
      SubJson (Json.obj fs) J →
      lookupField fs "key" = some (Json.str "filename") →
      lookupField fs "value" = some (Json.str v) →
      pyStrip v ≠ "" → v ∈ (scanJson J).2.1) ∧
    (∀ (J : Json) (fs : List (String × Json)) (v : String),
      SubJson (Json.obj fs) J →
      lookupField fs "file" = some (Json.str v) →
      pyStrip v ≠ "" → v ∈ (scanJson J).2.2) ∧
    (∀ v : String,
      scanJson (Json.obj [("key", Json.str "locationX"),
        ("value", Json.str v)]) = ([], [], [])) := by
  refine ⟨?_, ?_, ?_, ?_⟩
  · intro J fs v hsub h1 h2 h3
    have hv : v ∈ (scanJson (Json.obj fs)).1 := by
      show v ∈ kvHit fs "location" ++ (scanFields fs).1
      rw [kvHit_pos h1 h2 h3]
      exact List.mem_append_left _ (List.mem_singleton.mpr rfl)
    exact (scan_sub_mono hsub).1 hv
  · intro J fs v hsub h1 h2 h3
    have hv : v ∈ (scanJson (Json.obj fs)).2.1 := by
      show v ∈ kvHit fs "filename" ++ (scanFields fs).2.1
      rw [kvHit_pos h1 h2 h3]
      exact List.mem_append_left _ (List.mem_singleton.mpr rfl)
    exact (scan_sub_mono hsub).2.1 hv
  · intro J fs v hsub h2 h3
    have hv : v ∈ (scanJson (Json.obj fs)).2.2 := by
      show v ∈ fileHit fs ++ (scanFields fs).2.2
      rw [fileHit_pos h2 h3]
      exact List.mem_append_left _ (List.mem_singleton.mpr rfl)
    exact (scan_sub_mono hsub).2.2 hv
  · intro v
    rfl

/-- Witness for C4: the nested location object of the Scenario A manifest
is found at depth. -/
theorem claim4_witness : "keep/me.txt" ∈ (scanJson manifestA).1 :=
  claim4_node_extraction.1 manifestA fieldsA "keep/me.txt"
    (SubJson.inObj (SubJson.inArr (SubJson.refl (Json.obj fieldsA))
        (List.mem_singleton.mpr rfl))
      (List.mem_singleton.mpr rfl))
    rfl rfl (by decide)

/-- C8 counterexample: the answer YES differs from the literal strings yes
and y, yet on a manifest and snapshot with a non-empty delete list the run
removes a file, because the code strips and lower-cases the answer before
comparing. -/
theorem claim8_counterexample :
    mainDeleted manifestLocOnly ["zzz.bin"] "YES" = ["zzz.bin"] ∧
    "YES" ≠ "yes" ∧ "YES" ≠ "y" ∧ ["zzz.bin"] ≠ ([] : List String) := by
  refine ⟨by decide, by decide, by decide, by decide⟩

/-- C8 amended: for every manifest, snapshot and answer, if the answer
after stripping and lower-casing is neither yes nor y, the interactive
deleter removes zero files and the run is a cancellation. -/
theorem claim8_decline_removes_nothing (m : Option Json)
    (snap : List String) (ans : String)
    (h1 : asciiLower (pyStrip ans) ≠ "yes")
    (h2 : asciiLower (pyStrip ans) ≠ "y") :
    mainDeleted m snap ans = [] := by
  unfold mainDeleted
  split
  · rfl
  · split
    · rfl
    · split
      · next hyes =>
          rcases hyes with h | h
          · exact absurd h h1
          · exact absurd h h2
      · rfl

/-- Witness for the amended C8: declining with no removes nothing. -/
theorem claim8_amended_witness :
    mainDeleted manifestLocOnly ["zzz.bin"] "no" = [] :=
  claim8_decline_removes_nothing manifestLocOnly ["zzz.bin"] "no"
    (by decide) (by decide)

/-- C10: the verifier's estimated count is the snapshot size minus the
location-set size minus the protected-set size (which is 12), computed
from set sizes alone; at the concrete manifest referencing a.txt and the
one-file snapshot a.txt the estimate is minus twelve, which is negative
and differs from the length of the delete list either of the other two
drivers computes there (both zero). -/
theorem claim10_verify_estimate :
    (∀ (m : Option Json) (snap : List String),
      verifyEstimate m snap = (snap.length : Int) -
        ((extract_location_files_loc m).dedup.length : Int) - 12) ∧
    verifyEstimate manifestLocOnly ["a.txt"] = -12 ∧
    ((find_files_to_delete (extract_location_files manifestLocOnly).1
      (extract_location_files manifestLocOnly).2.1
      (extract_location_files manifestLocOnly).2.2
      protectedFilesCleanup ["a.txt"]).1.length = 0) ∧
    ((find_files_to_delete_gen (extract_location_files_loc manifestLocOnly)
      protectedFilesGen ["a.txt"]).1.length = 0) ∧
    verifyEstimate manifestLocOnly ["a.txt"] < 0 := by
  refine ⟨?_, by decide, by decide, by decide, by decide⟩
  intro m snap
  rw [verifyEstimate,
    show (protectedFilesVerify.dedup.length : Int) = 12 from by decide]

/-- The cleanup protected set is contained in the generator one. -/
theorem protC_sub_protG :
    ∀ x ∈ protectedFilesCleanup, x ∈ protectedFilesGen := by decide

/-- The generator protected set is the cleanup one plus its two extra
entries. -/
theorem protG_cases :
    ∀ x ∈ protectedFilesGen, x ∈ protectedFilesCleanup ∨
      x = "generate_cleanup_script.py" ∨ x = "cleanup_script.sh" := by
  decide

/-- The generator keep test, as a proposition. -/
theorem keepMatchGen_iff {f k : String} :
    keepMatchGen f k = true ↔
      (pathStr f = pathStr k ∨ pathName f = pathName k ∨
        pyStarts (pathStr f) ".git/" = true) := by
  simp [keepMatchGen, or_assoc]

/-- Every generator match is a cleanup match. -/
theorem keepMatch_of_gen {f k : String} (h : keepMatchGen f k = true) :
    keepMatch f k = true := by
  rw [keepMatch_iff]
  rcases keepMatchGen_iff.mp h with h | h | h
  · exact Or.inl h
  · exact Or.inr (Or.inl h)
  · exact Or.inr (Or.inr (Or.inr h))

/-- With no filename and no file-field entries, and for a file whose base
name is neither of the generator's two extra protected entries, the two
keep decisions coincide. -/
theorem shouldKeep_cleanup_iff_gen (L : List String) (f : String)
    (hs1 : pathName f ≠ "generate_cleanup_script.py")
    (hs2 : pathName f ≠ "cleanup_script.sh") :
    shouldKeep (protectedFilesCleanup ++ normEntries L ++
      filenameEntries [] ++ normEntries []) f =
    shouldKeepGen (protectedFilesGen ++ normEntries L) f := by
  apply bool_eq_of_iff
  rw [shouldKeep, shouldKeepGen, List.any_eq_true, List.any_eq_true]
  constructor
  · rintro ⟨k, hk, hm⟩
    rw [show filenameEntries [] = [] from rfl,
      show normEntries [] = [] from rfl, List.append_nil,
      List.append_nil] at hk
    have hkG : k ∈ protectedFilesGen ++ normEntries L := by
      rcases List.mem_append.mp hk with hk | hk
      · exact List.mem_append_left _ (protC_sub_protG k hk)
      · exact List.mem_append_right _ hk
    rcases keepMatch_iff.mp hm with h | h | h | h
    · exact ⟨k, hkG, keepMatchGen_iff.mpr (Or.inl h)⟩
    · exact ⟨k, hkG, keepMatchGen_iff.mpr (Or.inr (Or.inl h))⟩
    · have h2 : pathName k = pathName f := by rw [← h, pathName_idem]
      exact ⟨k, hkG, keepMatchGen_iff.mpr (Or.inr (Or.inl h2.symm))⟩
    · exact ⟨k, hkG, keepMatchGen_iff.mpr (Or.inr (Or.inr h))⟩
  · rintro ⟨k, hk, hm⟩
    have memC : ∀ x, x ∈ protectedFilesCleanup ∨ x ∈ normEntries L →
        x ∈ protectedFilesCleanup ++ normEntries L ++
          filenameEntries [] ++ normEntries [] := by
      intro x hx
      rcases hx with hx | hx
      · exact List.mem_append_left _ (List.mem_append_left _
          (List.mem_append_left _ hx))
      · exact List.mem_append_left _ (List.mem_append_left _
          (List.mem_append_right _ hx))
    have gitCase : pyStarts (pathStr f) ".git/" = true →
        ∃ k, k ∈ protectedFilesCleanup ++ normEntries L ++
          filenameEntries [] ++ normEntries [] ∧ keepMatch f k = true := by
      intro h
      exact ⟨"input.json", memC "input.json" (Or.inl (by decide)),
        keepMatch_iff.mpr (Or.inr (Or.inr (Or.inr h)))⟩
    rcases List.mem_append.mp hk with hk | hk
    · rcases protG_cases k hk with hkc | hke | hke
      · exact ⟨k, memC k (Or.inl hkc), keepMatch_of_gen hm⟩
      · subst hke
        rcases keepMatchGen_iff.mp hm with h | h | h
        · have h2 := name_eq_of_pathStr_eq h
          rw [show pathName "generate_cleanup_script.py" =
            "generate_cleanup_script.py" from by decide] at h2
          exact absurd h2 hs1
        · rw [show pathName "generate_cleanup_script.py" =
            "generate_cleanup_script.py" from by decide] at h
          exact absurd h hs1
        · exact gitCase h
      · subst hke
        rcases keepMatchGen_iff.mp hm with h | h | h
        · have h2 := name_eq_of_pathStr_eq h
          rw [show pathName "cleanup_script.sh" =
            "cleanup_script.sh" from by decide] at h2
          exact absurd h2 hs2
        · rw [show pathName "cleanup_script.sh" =
            "cleanup_script.sh" from by decide] at h
          exact absurd h hs2
        · exact gitCase h
    · exact ⟨k, memC k (Or.inr hk), keepMatch_of_gen hm⟩

/-- C2 counterexample: on a manifest with one location entry a.txt and one
direct file field b.txt, and the snapshot holding both files, the
interactive deleter's planner deletes nothing while the script
generator's planner deletes b.txt, because the generator ignores file
fields (and its protected set also differs). -/
theorem claim2_counterexample :
    (find_files_to_delete (scanJson manifestBoth).1
      (scanJson manifestBoth).2.1 (scanJson manifestBoth).2.2
      protectedFilesCleanup ["a.txt", "b.txt"]).1 = [] ∧
    (find_files_to_delete_gen (scanJsonLoc manifestBoth)
      protectedFilesGen ["a.txt", "b.txt"]).1 = ["b.txt"] :=
  ⟨by decide, by decide⟩

/-- C2 amended: the two planners compute the same delete list whenever the
manifest scan yields no filename entries and no file-field entries, and no
snapshot file has base name generate_cleanup_script.py or
cleanup_script.sh (the generator's extra protected entries). -/
theorem claim2_planners_agree (j : Json) (snap : List String)
    (hfn : (scanJson j).2.1 = []) (hff : (scanJson j).2.2 = [])
    (hsafe : ∀ f ∈ snap, pathName f ≠ "generate_cleanup_script.py" ∧
      pathName f ≠ "cleanup_script.sh") :
    (find_files_to_delete (scanJson j).1 (scanJson j).2.1
      (scanJson j).2.2 protectedFilesCleanup snap).1 =
    (find_files_to_delete_gen (scanJsonLoc j) protectedFilesGen snap).1 := by
  rw [find_files_to_delete_eq, find_files_to_delete_gen_eq, hfn, hff,
    scanJsonLoc_eq]
  apply List.filter_congr
  intro f hf
  obtain ⟨hs1, hs2⟩ := hsafe f hf
  rw [shouldKeep_cleanup_iff_gen (scanJson j).1 f hs1 hs2]

/-- Witness for the amended C2 at a concrete manifest and snapshot. -/
theorem claim2_amended_witness :
    (find_files_to_delete (scanJson (Json.obj fieldsA)).1
      (scanJson (Json.obj fieldsA)).2.1 (scanJson (Json.obj fieldsA)).2.2
      protectedFilesCleanup ["keep/me.txt", "junk.dat"]).1 =
    (find_files_to_delete_gen (scanJsonLoc (Json.obj fieldsA))
      protectedFilesGen ["keep/me.txt", "junk.dat"]).1 :=
  claim2_planners_agree (Json.obj fieldsA) ["keep/me.txt", "junk.dat"]
    rfl rfl (by decide)
